import Mathlib

/-!
Verification of the card identification subsystem of the Pokemon-Card-Finder
repository, shallowly embedded in Lean 4.

The embedding covers:
* the learning memory (`LearningSystem` in `src/Scrips/cards_utils.py`):
  perceptual hash, Hamming distance, `check_learned_match`, `is_blacklisted`,
  `add_confirmed_match`;
* the feature-matching candidate construction of `CardMatcher.match_card`
  (`src/Scrips/Main_Renamer_learning.py`);
* the OCR number extraction `PokemonCardReader.find_card_number` and the
  back-crop `CardCropper.crop_card_back` (`src/Scrips/IMG_pokemon_renamer.py`);
* the angle normalization of `CardCropper.rotate_image`;
* the language-fallback name lookup `get_card_name_for_language`.

Images handed to the learning system are modelled at the boundary of the
`cv2.resize`/`cv2.cvtColor` stage of `_perceptual_hash`: an `Image` is the
flattened 16 x 16 grayscale raster (256 intensity values) that the
resize-and-grayscale stage produces, so a bit-identical crop is a
definitionally equal `Image`.  Floating point confidences are modelled with
`Rat`; every float expression appearing in the modelled code paths
(`1.0 - distance/256`, `0.05` increments, angle folds by 90) is exact in
binary floating point, so `Rat` arithmetic is faithful.
-/

/-- A crop image as consumed by `LearningSystem._perceptual_hash` after the
`cv2.resize((16,16))` + `cv2.cvtColor(BGR2GRAY)` stage: the flattened list of
256 grayscale intensities. -/
abbrev Image : Type := List Nat

/-- Ascending insertion of a natural number into a sorted list (helper for the
`np.median` computation inside `_perceptual_hash`). -/
def insertAsc (x : Nat) : List Nat → List Nat
  | [] => [x]
  | y :: ys => if x ≤ y then x :: y :: ys else y :: insertAsc x ys

/-- Ascending insertion sort on natural numbers (helper for `np.median`). -/
def sortAsc : List Nat → List Nat
  | [] => []
  | x :: xs => insertAsc x (sortAsc xs)

/-- Twice the `np.median` of a list of natural numbers: for an even-length
list the sum of the two middle elements of the sorted list, for an odd length
twice the middle element.  Working with twice the median keeps the comparison
`gray > median` of `_perceptual_hash` exact (the even case can produce a
half-integral median). -/
def medianTwice (xs : List Nat) : Nat :=
  let s := sortAsc xs
  let n := xs.length
  if n % 2 = 1 then 2 * s.getD (n / 2) 0
  else s.getD (n / 2 - 1) 0 + s.getD (n / 2) 0

/-- `LearningSystem._perceptual_hash` (src/Scrips/cards_utils.py lines 83-90):
each pixel of the 16 x 16 grayscale raster is compared against the median
intensity; the hash is the resulting bit string (`'1' if val else '0'`,
modelled as `Bool`).  `gray > median` is rendered as `2 * g > medianTwice`. -/
def perceptualHash (image : Image) : List Bool :=
  let m := medianTwice image
  image.map (fun g => decide (2 * g > m))

/-- `LearningSystem._hamming_distance` (cards_utils.py lines 92-94):
`sum(c1 != c2 for c1, c2 in zip(hash1, hash2))` — Python `zip` truncates to
the shorter operand. -/
def hammingDistance (hash1 hash2 : List Bool) : Nat :=
  ((hash1.zip hash2).filter (fun p => p.1 != p.2)).length

/-- The per-set statistics counters of the learning database
(`'stats'` entry of `LearningSystem.data`). -/
structure LearningStats where
  auto_matches : Nat
  manual_entries : Nat
  total_processed : Nat
deriving DecidableEq

/-- The pickled learning database `LearningSystem.data`
(cards_utils.py lines 75-80).  Python dictionaries are modelled as
insertion-ordered association lists with unique keys, matching dict
iteration order and in-place update semantics. -/
structure LearningData where
  confirmed_matches : List (List Bool × String)
  blacklist : List (List Bool × List String)
  confidence_boost : List (String × Rat)
  stats : LearningStats

/-- One step of the best-match fold inside `check_learned_match`
(cards_utils.py lines 103-110): a stored hash within Hamming distance 77
yields confidence `1.0 - distance/256`, and strictly better confidence
replaces the running best. -/
def clmStep (imgHash : List Bool) (acc : Option String × Rat)
    (kv : List Bool × String) : Option String × Rat :=
  let distance := hammingDistance imgHash kv.1
  if distance < 77 then
    let confidence : Rat := 1 - (distance : Rat) / 256
    if confidence > acc.2 then (some kv.2, confidence) else acc
  else acc

/-- Python truthiness of the `best_match_id` variable
(`if best_match_id:`): `None` and the empty string are falsy. -/
def pyTruthy : Option String → Bool
  | none => false
  | some s => s ≠ ""

/-- `LearningSystem.check_learned_match` (cards_utils.py lines 96-115):
hash the crop, scan every confirmed hash keeping the strictly best
confidence below distance 77, and return `(card_id, confidence, "learned")`
when a truthy best match exists, `(None, 0.0, None)` otherwise. -/
def check_learned_match (st : LearningData) (image : Image) :
    Option String × Rat × Option String :=
  let imgHash := perceptualHash image
  let best := st.confirmed_matches.foldl (clmStep imgHash) (none, 0)
  if pyTruthy best.1 then (best.1, best.2, some "learned") else (none, 0, none)

/-- `LearningSystem.is_blacklisted` (cards_utils.py lines 117-127): true when
some stored blacklist hash lies within Hamming distance 77 of the crop hash
and its rejected-id list contains `card_id`. -/
def is_blacklisted (st : LearningData) (image : Image) (card_id : String) :
    Bool :=
  let imgHash := perceptualHash image
  st.blacklist.any
    (fun kv => hammingDistance imgHash kv.1 < 77 && kv.2.contains card_id)

/-- Python dict update `d[k] = v` on an insertion-ordered association list:
replace the value at the first (unique) occurrence of the key, otherwise
append the binding. -/
def dictSet (l : List (List Bool × String)) (k : List Bool) (v : String) :
    List (List Bool × String) :=
  match l with
  | [] => [(k, v)]
  | kv :: rest => if kv.1 = k then (k, v) :: rest else kv :: dictSet rest k v

/-- The `confidence_boost` update of `add_confirmed_match`
(cards_utils.py lines 134-136): initialize a missing entry to 0 and add
`0.05`. -/
def boostIncr (l : List (String × Rat)) (card_id : String) :
    List (String × Rat) :=
  match l with
  | [] => [(card_id, 1 / 20)]
  | kv :: rest =>
    if kv.1 = card_id then (kv.1, kv.2 + 1 / 20) :: rest
    else kv :: boostIncr rest card_id

/-- `LearningSystem.add_confirmed_match` (cards_utils.py lines 129-139):
store `confirmed_matches[hash] = card_id` (last write wins) and add `0.05`
to the card's confidence boost.  The `save()` flush is disk I/O outside the
state transition. -/
def add_confirmed_match (st : LearningData) (image : Image)
    (card_id : String) : LearningData :=
  let imgHash := perceptualHash image
  { st with
    confirmed_matches := dictSet st.confirmed_matches imgHash card_id
    confidence_boost := boostIncr st.confidence_boost card_id }

/-- Descending stable insertion by score (second component), mirroring the
stable `matches.sort(key=lambda x: x[1], reverse=True)` of `match_card`
(Main_Renamer_learning.py line 434): an earlier element moves past only
strictly larger scores, so equal scores keep their original order. -/
def insertDesc (p : String × Rat) : List (String × Rat) → List (String × Rat)
  | [] => [p]
  | q :: qs => if p.2 < q.2 then q :: insertDesc p qs else p :: q :: qs

/-- Stable descending sort by score, mirroring Python's stable
`list.sort(..., reverse=True)`. -/
def sortDesc : List (String × Rat) → List (String × Rat)
  | [] => []
  | p :: ps => insertDesc p (sortDesc ps)

/-- The feature-matching candidate construction of `CardMatcher.match_card`
(Main_Renamer_learning.py lines 424-434): every reference id that is not
blacklisted for the crop is scored and the scored list is sorted by score
descending.  `refs` is the insertion-ordered id list of
`self.reference_images`; `score` is the pure function
`compare_images_features(cropped_image, reference_images[id])`, which reads
no learning state (lines 383-405). -/
def featureMatches (st : LearningData) (refs : List String)
    (score : String → Rat) (image : Image) : List (String × Rat) :=
  sortDesc
    ((refs.filter (fun card_id => !(is_blacklisted st image card_id))).map
      (fun card_id => (card_id, score card_id)))

/-- The memory fast path at the top of `CardMatcher.match_card`
(Main_Renamer_learning.py lines 410-418): accept the learned id when the
memory lookup is truthy and its confidence exceeds `0.85`. -/
def memoryFastPath (st : LearningData) (image : Image) : Option String :=
  match check_learned_match st image with
  | (some learned_id, conf, _) =>
    if conf > 85 / 100 then some learned_id else none
  | (none, _, _) => none

/-! ## OCR number extraction (`PokemonCardReader.find_card_number`,
src/Scrips/IMG_pokemon_renamer.py lines 306-402)

The OCR engine outputs (one text per preprocessing-variant, segmentation
mode and interpretation) are inputs to the embedded scanner; the scanner
itself — regex extraction, range validation, first-accept, `"Unknown"`
sentinel — is embedded faithfully. -/

/-- Python `\s` character class (`[ \t\n\r\x0b\x0c]`). -/
def pyIsSpace (c : Char) : Bool :=
  c = ' ' || c = '\t' || c = '\n' || c = '\r' || c = '\x0b' || c = '\x0c'

/-- The separator class `[/\\|]` of the card-number regex. -/
def isSep (c : Char) : Bool :=
  c = '/' || c = '\\' || c = '|'

/-- Decimal value of a digit string, as Python `int` on a digit-only
string. -/
def charsToNat (cs : List Char) : Nat :=
  cs.foldl (fun n c => 10 * n + (c.toNat - 48)) 0

/-- `re.search(r'(\d{1,3})', text)` (IMG_pokemon_renamer.py line 373):
leftmost match position, greedy up to three digits. -/
def digitSearch13 : List Char → Option (List Char)
  | [] => none
  | c :: rest =>
    if c.isDigit then some (((c :: rest).takeWhile Char.isDigit).take 3)
    else digitSearch13 rest

/-- Attempt of the pattern `(\d{1,3})\s*[/\\|]\s*(\d{1,3})` anchored at the
current position with first group length exactly `k` (regex backtracking
tries `k = 3, 2, 1`). -/
def slashMatchK (cs : List Char) (k : Nat) : Option (List Char × List Char) :=
  let g1 := cs.take k
  if g1.length = k && g1.all Char.isDigit && decide (0 < k) then
    let rest1 := (cs.drop k).dropWhile pyIsSpace
    match rest1 with
    | [] => none
    | s :: rest2 =>
      if isSep s then
        let g2 := ((rest2.dropWhile pyIsSpace).takeWhile Char.isDigit).take 3
        if g2.isEmpty then none else some (g1, g2)
      else none
  else none

/-- `re.search(r'(\d{1,3})\s*[/\\|]\s*(\d{1,3})', text)`
(IMG_pokemon_renamer.py lines 383 and 392): scan positions left to right,
at each position try first-group lengths 3, 2, 1. -/
def slashSearch : List Char → Option (List Char × List Char)
  | [] => none
  | c :: rest =>
    match slashMatchK (c :: rest) 3 with
    | some r => some r
    | none =>
      match slashMatchK (c :: rest) 2 with
      | some r => some r
      | none =>
        match slashMatchK (c :: rest) 1 with
        | some r => some r
        | none => slashSearch rest

/-- The per-text candidate scan inside `find_card_number`
(IMG_pokemon_renamer.py lines 370-396) for one OCR text:

* with a known set card count: first a lone 1-3 digit sequence whose value
  lies in `(0, count]`, returned as `"num/count"`; then a `X/Y` match whose
  second group equals the count; finally the unvalidated `X/Y` pattern;
* without a count: only the unvalidated `X/Y` pattern. -/
def tryText (set_card_count : Option Nat) (text : List Char) :
    Option String :=
  let stdMatch :=
    match slashSearch text with
    | some (g1, g2) => some (String.mk g1 ++ "/" ++ String.mk g2)
    | none => none
  match set_card_count with
  | some count =>
    let single :=
      match digitSearch13 text with
      | some g =>
        if 0 < charsToNat g && charsToNat g ≤ count then
          some (String.mk g ++ "/" ++ Nat.repr count)
        else none
      | none => none
    match single with
    | some r => some r
    | none =>
      match slashSearch text with
      | some (g1, g2) =>
        if String.mk g2 = Nat.repr count then
          some (String.mk g1 ++ "/" ++ String.mk g2)
        else stdMatch
      | none => stdMatch
  | none => stdMatch

/-- `PokemonCardReader.find_card_number` over the ordered list of OCR texts
produced by the preprocessing x segmentation-mode x interpretation
cross-product: the first accepted candidate is returned, otherwise the
sentinel `"Unknown"` (IMG_pokemon_renamer.py lines 341-402).  Per-candidate
OCR failures are dropped from `texts` by the `try/except: continue` around
each OCR invocation. -/
def find_card_number (set_card_count : Option Nat)
    (texts : List (List Char)) : String :=
  match texts with
  | [] => "Unknown"
  | t :: rest =>
    match tryText set_card_count t with
    | some r => r
    | none => find_card_number set_card_count rest

/-! ## Geometric cropper (src/Scrips/IMG_pokemon_renamer.py) -/

/-- A full-resolution raster as a list of pixel rows (pixel values as
natural numbers; only the geometry matters to the embedded operations). -/
abbrev Raster : Type := List (List Nat)

/-- Row count (`image.shape[0]`). -/
def rasterH (img : Raster) : Nat := img.length

/-- Column count (`image.shape[1]`) of a rectangular raster. -/
def rasterW (img : Raster) : Nat := (img.headD []).length

/-- `CardCropper.crop_card_back` (IMG_pokemon_renamer.py lines 179-201):
deterministic center crop of `int(w*0.4)` x `int(h*0.95)`.  `int(w*0.4)` and
`int(h*0.95)` are rendered as `2*w/5` and `19*h/20` in natural division: the
float products `w*0.4` and `h*0.95` truncate to exactly these values for all
raster dimensions (0.4 and 0.95 round up as doubles, so the products never
fall below the rational value, and truncation discards the sub-ulp
excess). -/
def crop_card_back (img : Raster) : Raster :=
  let h := rasterH img
  let w := rasterW img
  let crop_w := 2 * w / 5
  let crop_h := 19 * h / 20
  let start_x := (w - crop_w) / 2
  let start_y := (h - crop_h) / 2
  let end_x := min w (start_x + crop_w)
  let end_y := min h (start_y + crop_h)
  ((img.drop start_y).take (end_y - start_y)).map
    (fun row => (row.drop start_x).take (end_x - start_x))

/-- The angle fold of `CardCropper.rotate_image`
(IMG_pokemon_renamer.py lines 154-160): one conditional fold by 90 degrees.
Both the rotated and the nearly-straight branch return this folded angle. -/
def normalizeAngle (angle : Rat) : Rat :=
  if angle > 45 then angle - 90
  else if angle < -45 then angle + 90
  else angle

/-! ## Catalog language lookup and learning-pipeline cropper methods -/

/-- One entry of `card_info_map`: the base record built by
`load_card_info` (Main_Renamer_learning.py lines 236-245), with the
language-name keys (`name_de` ... `name_pt`) as an association list. -/
structure CardInfo where
  name : String
  localId : String
  id : String
  langNames : List (String × String)

/-- Python `str.lower()` on a single ASCII character (language codes are
ASCII). -/
def pyLowerChar (c : Char) : Char :=
  if 'A' ≤ c && c ≤ 'Z' then Char.ofNat (c.toNat + 32) else c

/-- Python `str.lower()` restricted to the ASCII language codes the
pipeline uses (`'DE' ... 'PT'`). -/
def pyLower (s : String) : String := String.mk (s.data.map pyLowerChar)

/-- First-occurrence association-list lookup (Python dict read). -/
def lookupKey (l : List (String × String)) (k : String) : Option String :=
  match l with
  | [] => none
  | kv :: rest => if kv.1 = k then some kv.2 else lookupKey rest k

/-- `CardMatcher.get_card_name_for_language`
(Main_Renamer_learning.py lines 254-263; the `CardDatabase` copy at
cards_utils.py lines 311-318 is line-for-line identical): return the
language-specific name when present, truthy and not `'Unknown'`, otherwise
fall back to the default `name`. -/
def get_card_name_for_language (card_info : CardInfo) (language : String) :
    String :=
  let lang_key := "name_" ++ pyLower language
  match lookupKey card_info.langNames lang_key with
  | some v =>
    if v ≠ "" then (if v ≠ "" && v ≠ "Unknown" then v else card_info.name)
    else card_info.name
  | none => card_info.name

/-- The public and private method names defined by the `CardCropper` class
of src/Scrips/cards_utils.py (lines 420-749) — the class the learning
pipeline imports (Main_Renamer_learning.py lines 15-22). -/
def cardsUtilsCropperMethods : List String :=
  ["__init__", "crop_card_basic", "crop_card_advanced",
   "_crop_by_blue_border", "_crop_by_contrast", "_crop_by_color_border",
   "_crop_by_edges", "_crop_by_brightness"]

/-- Python attribute resolution on a `cards_utils.CardCropper` instance:
a method call resolves only when the class defines the name, otherwise it
raises `AttributeError`. -/
def resolveCropperMethod (name : String) : Option String :=
  if cardsUtilsCropperMethods.contains name then some name else none

/-- The cropper method `process_language_folder` invokes for the front
image (Main_Renamer_learning.py line 607). -/
def frontCropCall : String := "crop_card"

/-- The cropper method `process_language_folder` invokes for the back
image (Main_Renamer_learning.py line 673). -/
def backCropCall : String := "crop_card_back"

/-- The cropper method `process_language_folder` invokes on the RECROP
retry (Main_Renamer_learning.py line 621). -/
def recropCall : String := "crop_card_basic"

/-! ## Helper lemmas -/

lemma mem_insertDesc {q p : String × Rat} {l : List (String × Rat)} :
    q ∈ insertDesc p l ↔ q = p ∨ q ∈ l := by
  induction l with
  | nil => simp [insertDesc]
  | cons r rs ih =>
    by_cases h : p.2 < r.2
    · simp only [insertDesc, if_pos h, List.mem_cons, ih]
      tauto
    · simp only [insertDesc, if_neg h, List.mem_cons]

lemma mem_sortDesc {q : String × Rat} {l : List (String × Rat)} :
    q ∈ sortDesc l ↔ q ∈ l := by
  induction l with
  | nil => simp [sortDesc]
  | cons p ps ih => simp [sortDesc, mem_insertDesc, ih]

lemma hammingDistance_self (h : List Bool) : hammingDistance h h = 0 := by
  induction h with
  | nil => rfl
  | cons b bs ih => simpa [hammingDistance, List.zip_cons_cons] using ih

lemma hammingDistance_pos {a b : List Bool} (hlen : a.length = b.length)
    (hne : a ≠ b) : 0 < hammingDistance a b := by
  induction a generalizing b with
  | nil =>
    cases b with
    | nil => exact absurd rfl hne
    | cons y ys => simp at hlen
  | cons x xs ih =>
    cases b with
    | nil => simp at hlen
    | cons y ys =>
      by_cases hxy : x = y
      · subst hxy
        have hne' : xs ≠ ys := fun e => hne (by rw [e])
        have h1 := ih (b := ys) (by simpa using hlen) hne'
        simpa [hammingDistance, List.zip_cons_cons, List.filter_cons] using h1
      · simp only [hammingDistance, List.zip_cons_cons, List.filter_cons]
        have : (x != y) = true := by simpa using hxy
        simp [this]


/-! ## Claim theorems -/

/-- C3: the learning pipeline's orchestrator `process_language_folder` calls
`cropper.crop_card()` and `back_cropper.crop_card_back()` on instances of the
`CardCropper` class imported from `cards_utils`, but that class defines
neither method (it only has `crop_card_basic`, `crop_card_advanced` and
private helpers), so both calls fail attribute resolution — contradicting
the cropper contract the orchestrator relies on (the `RECROP` retry call
`crop_card_basic` does resolve). -/
theorem learning_pipeline_cropper_missing_methods :
    resolveCropperMethod frontCropCall = none ∧
    resolveCropperMethod backCropCall = none ∧
    resolveCropperMethod recropCall = some "crop_card_basic" := by
  decide

/-- C6 counterexample: the claim says the angle returned by `rotate_image`
always lies in the half-open interval `(-45, 45]`, but a raw minimum-area
rectangle angle of exactly `-45` is left unchanged by the fold, and `-45`
is not in `(-45, 45]`. -/
theorem normalizeAngle_counterexample :
    normalizeAngle (-45) = -45 ∧
    ¬ ((-45 : Rat) < normalizeAngle (-45) ∧ normalizeAngle (-45) ≤ 45) := by
  constructor
  · norm_num [normalizeAngle]
  · norm_num [normalizeAngle]

/-- C6 (amended): for every raw angle in `[-90, 90]` — the range OpenCV's
minimum-area bounding rectangle yields across versions — the single
90-degree fold of `rotate_image` lands in the closed interval
`[-45, 45]`. -/
theorem normalizeAngle_folded_range (angle : Rat)
    (h1 : -90 ≤ angle) (h2 : angle ≤ 90) :
    -45 ≤ normalizeAngle angle ∧ normalizeAngle angle ≤ 45 := by
  unfold normalizeAngle
  split_ifs with ha hb
  · constructor <;> linarith
  · constructor <;> linarith
  · constructor <;> linarith

/-- Witness for `normalizeAngle_folded_range` at the concrete raw angle
`60`. -/
theorem normalizeAngle_folded_range_witness :
    -45 ≤ normalizeAngle 60 ∧ normalizeAngle 60 ≤ 45 :=
  normalizeAngle_folded_range 60 (by norm_num) (by norm_num)

/-- C7: when the language-specific entry `name_<lang>` of a card record is
the empty string and the default `name` is non-empty,
`get_card_name_for_language` falls back to the default name. -/
theorem language_fallback_default_name (card_info : CardInfo)
    (language : String)
    (hempty : lookupKey card_info.langNames ("name_" ++ pyLower language) =
      some "")
    (hdefault : card_info.name ≠ "") :
    get_card_name_for_language card_info language = card_info.name := by
  unfold get_card_name_for_language
  simp [hempty]

/-- Witness for `language_fallback_default_name`: a record with empty
`name_ja` and default name `"Ampharos"`, queried for `"JA"`. -/
theorem language_fallback_default_name_witness :
    get_card_name_for_language
      (CardInfo.mk "Ampharos" "1" "neo1-1"
        [("name_en", "Ampharos"), ("name_ja", "")]) "JA" = "Ampharos" :=
  language_fallback_default_name
    (CardInfo.mk "Ampharos" "1" "neo1-1"
      [("name_en", "Ampharos"), ("name_ja", "")]) "JA" (by decide) (by decide)

/-- C8: when no OCR candidate text across the whole
preprocessing x segmentation-mode x interpretation cross-product yields an
accepted number pattern, `find_card_number` returns the sentinel
`"Unknown"`; the scan is a total function (per-candidate OCR failures are
caught by the `try/except: continue` and merely shorten the candidate
list). -/
theorem find_card_number_unknown_on_failure (set_card_count : Option Nat)
    (texts : List (List Char))
    (hfail : ∀ t ∈ texts, tryText set_card_count t = none) :
    find_card_number set_card_count texts = "Unknown" := by
  induction texts with
  | nil => rfl
  | cons t rest ih =>
    have ht : tryText set_card_count t = none := hfail t (by simp)
    have hrest : ∀ u ∈ rest, tryText set_card_count u = none :=
      fun u hu => hfail u (by simp [hu])
    simp [find_card_number, ht, ih hrest]

/-- Witness for `find_card_number_unknown_on_failure`: two rejected
candidate texts (a letters-only read and an empty read) with set count
102. -/
theorem find_card_number_unknown_on_failure_witness :
    find_card_number (some 102) ["abc".data, "".data] = "Unknown" :=
  find_card_number_unknown_on_failure (some 102) ["abc".data, "".data]
    (by decide)

/-- C10: the memory fast path consults only the confirmed-match table: for
two learning states that differ only in their blacklist contents,
`check_learned_match` — and with it the auto-accepting fast-path decision
of `match_card` — returns the identical result on every image, so an
identifier blacklisted for a crop's hash can still be returned and
auto-accepted through the confirmed-memory fast path. -/
theorem fast_path_ignores_blacklist (s1 s2 : LearningData)
    (hconf : s1.confirmed_matches = s2.confirmed_matches)
    (hboost : s1.confidence_boost = s2.confidence_boost)
    (hstats : s1.stats = s2.stats) (image : Image) :
    check_learned_match s1 image = check_learned_match s2 image ∧
    memoryFastPath s1 image = memoryFastPath s2 image := by
  have h1 : check_learned_match s1 image = check_learned_match s2 image := by
    unfold check_learned_match
    rw [hconf]
  exact ⟨h1, by unfold memoryFastPath; rw [h1]⟩

/-- Witness for `fast_path_ignores_blacklist`: two states sharing one
confirmed match but with different blacklists (the second blacklists the
very id the fast path would return). -/
theorem fast_path_ignores_blacklist_witness :
    check_learned_match
      (LearningData.mk [([true, false], "neo1-1")] []
        [] (LearningStats.mk 0 0 0)) [7, 0] =
    check_learned_match
      (LearningData.mk [([true, false], "neo1-1")]
        [([true, false], ["neo1-1"])]
        [] (LearningStats.mk 0 0 0)) [7, 0] ∧
    memoryFastPath
      (LearningData.mk [([true, false], "neo1-1")] []
        [] (LearningStats.mk 0 0 0)) [7, 0] =
    memoryFastPath
      (LearningData.mk [([true, false], "neo1-1")]
        [([true, false], ["neo1-1"])]
        [] (LearningStats.mk 0 0 0)) [7, 0] :=
  fast_path_ignores_blacklist
    (LearningData.mk [([true, false], "neo1-1")] []
      [] (LearningStats.mk 0 0 0))
    (LearningData.mk [([true, false], "neo1-1")]
      [([true, false], ["neo1-1"])]
      [] (LearningStats.mk 0 0 0)) rfl rfl rfl [7, 0]

/-- C9: the `confidence_boost` table never influences matching: for two
learning states that differ only in their confidence-boost mapping, the
feature-matching step of `match_card` produces the identical scored and
ranked candidate list for every crop, reference set and descriptor-score
function (the boost is written by `add_confirmed_match` but never read when
computing or comparing similarity scores). -/
theorem confidence_boost_no_influence (s1 s2 : LearningData)
    (hconf : s1.confirmed_matches = s2.confirmed_matches)
    (hbl : s1.blacklist = s2.blacklist)
    (hstats : s1.stats = s2.stats) (refs : List String)
    (score : String → Rat) (image : Image) :
    featureMatches s1 refs score image = featureMatches s2 refs score image := by
  unfold featureMatches is_blacklisted
  rw [hbl]

/-- Witness for `confidence_boost_no_influence`: states with boost tables
`[]` and `[("neo1-2", 1/4)]`, otherwise identical. -/
theorem confidence_boost_no_influence_witness :
    featureMatches
      (LearningData.mk [] [([false], ["neo1-1"])] []
        (LearningStats.mk 0 0 0)) ["neo1-1", "neo1-2"] (fun _ => 1 / 2) [0] =
    featureMatches
      (LearningData.mk [] [([false], ["neo1-1"])] [("neo1-2", 1 / 4)]
        (LearningStats.mk 0 0 0)) ["neo1-1", "neo1-2"] (fun _ => 1 / 2) [0] :=
  confidence_boost_no_influence
    (LearningData.mk [] [([false], ["neo1-1"])] []
      (LearningStats.mk 0 0 0))
    (LearningData.mk [] [([false], ["neo1-1"])] [("neo1-2", 1 / 4)]
      (LearningStats.mk 0 0 0)) rfl rfl rfl ["neo1-1", "neo1-2"]
    (fun _ => 1 / 2) [0]

/-- C1: if identifier `Y` is blacklisted for a crop (some stored blacklist
hash within Hamming distance 77 of the crop's perceptual hash maps to a set
containing `Y`), the feature-matching step of `match_card` excludes `Y` from
its scored candidate list, so `Y` is never the top-ranked candidate,
regardless of its raw feature-similarity score. -/
theorem blacklist_excludes_candidate (st : LearningData) (refs : List String)
    (score : String → Rat) (image : Image) (Y : String)
    (hb : is_blacklisted st image Y = true) :
    Y ∉ (featureMatches st refs score image).map Prod.fst ∧
    (∀ p ∈ featureMatches st refs score image, p.1 ≠ Y) ∧
    (∀ p ∈ (featureMatches st refs score image).head?, p.1 ≠ Y) := by
  have hall : ∀ p ∈ featureMatches st refs score image, p.1 ≠ Y := by
    intro p hp
    have hp' : p ∈ (refs.filter
        (fun card_id => !(is_blacklisted st image card_id))).map
        (fun card_id => (card_id, score card_id)) := by
      simpa [featureMatches, mem_sortDesc] using hp
    rcases List.mem_map.mp hp' with ⟨card_id, hcid, hpe⟩
    have hkeep := List.of_mem_filter hcid
    intro hPY
    rw [← hpe] at hPY
    have hcY : card_id = Y := hPY
    rw [hcY, hb] at hkeep
    simp at hkeep
  refine ⟨?_, hall, ?_⟩
  · intro hmem
    rcases List.mem_map.mp hmem with ⟨p, hp, hpy⟩
    exact hall p hp hpy
  · intro p hp
    exact hall p (List.mem_of_mem_head? hp)

/-- Witness for `blacklist_excludes_candidate`: a state blacklisting
`"neo1-1"` at the crop's exact hash, with `"neo1-1"` among the references
and carrying the best raw score. -/
theorem blacklist_excludes_candidate_witness :
    "neo1-1" ∉ (featureMatches
      (LearningData.mk [] [([false], ["neo1-1"])] []
        (LearningStats.mk 0 0 0)) ["neo1-1", "neo1-2"]
      (fun card_id => if card_id = "neo1-1" then 9 / 10 else 1 / 10)
      [0]).map Prod.fst :=
  (blacklist_excludes_candidate
    (LearningData.mk [] [([false], ["neo1-1"])] []
      (LearningStats.mk 0 0 0)) ["neo1-1", "neo1-2"]
    (fun card_id => if card_id = "neo1-1" then 9 / 10 else 1 / 10)
    [0] "neo1-1" (by decide)).1

/-- C5: on every rectangular `H x W` source raster (any positive size),
`crop_card_back` deterministically returns the centered sub-region of
`int(0.95*H)` rows by `int(0.4*W)` columns — the clamping `max`/`min`
never cuts the region, so there is no failure mode and the result is
independent of pixel content. -/
theorem crop_card_back_dims (img : Raster) (w : Nat)
    (hw : ∀ row ∈ img, row.length = w) (hh : 1 ≤ img.length)
    (hw1 : 1 ≤ w) :
    (crop_card_back img).length = 19 * img.length / 20 ∧
    (∀ row ∈ crop_card_back img, row.length = 2 * w / 5) ∧
    crop_card_back img =
      ((img.drop ((img.length - 19 * img.length / 20) / 2)).take
        (19 * img.length / 20)).map
        (fun row => (row.drop ((w - 2 * w / 5) / 2)).take (2 * w / 5)) := by
  have hW : rasterW img = w := by
    cases img with
    | nil => simp at hh
    | cons r rest => simpa [rasterW] using hw r (by simp)
  have hsx : (w - 2 * w / 5) / 2 + 2 * w / 5 ≤ w := by omega
  have hsy : (img.length - 19 * img.length / 20) / 2 + 19 * img.length / 20 ≤
      img.length := by omega
  have key : crop_card_back img =
      ((img.drop ((img.length - 19 * img.length / 20) / 2)).take
        (19 * img.length / 20)).map
        (fun row => (row.drop ((w - 2 * w / 5) / 2)).take (2 * w / 5)) := by
    simp only [crop_card_back, rasterH, hW]
    rw [Nat.min_eq_right hsx, Nat.min_eq_right hsy,
      Nat.add_sub_cancel_left, Nat.add_sub_cancel_left]
  refine ⟨?_, ?_, key⟩
  · rw [key, List.length_map, List.length_take, List.length_drop]
    omega
  · intro row hrow
    rw [key] at hrow
    rcases List.mem_map.mp hrow with ⟨r, hr, hre⟩
    have hrimg : r ∈ img := List.mem_of_mem_drop (List.mem_of_mem_take hr)
    have hrw : r.length = w := hw r hrimg
    rw [← hre, List.length_take, List.length_drop, hrw]
    omega

/-- Witness for `crop_card_back_dims`: a 20 x 5 raster, whose back crop is
19 rows high. -/
theorem crop_card_back_dims_witness :
    (crop_card_back (List.replicate 20 (List.replicate 5 0))).length =
      19 * (List.replicate 20 (List.replicate 5 (0 : Nat))).length / 20 :=
  (crop_card_back_dims (List.replicate 20 (List.replicate 5 0)) 5
    (by decide) (by decide) (by decide)).1

lemma not_space_of_isDigit {c : Char} (h : c.isDigit = true) :
    pyIsSpace c = false := by
  cases hpc : pyIsSpace c
  · rfl
  · exfalso
    simp only [pyIsSpace, Bool.or_eq_true, decide_eq_true_eq] at hpc
    rcases hpc with ((((h1 | h2) | h3) | h4) | h5) | h6 <;> subst_vars <;>
      exact absurd h (by decide)

lemma not_sep_of_isDigit {c : Char} (h : c.isDigit = true) :
    isSep c = false := by
  cases hpc : isSep c
  · rfl
  · exfalso
    simp only [isSep, Bool.or_eq_true, decide_eq_true_eq] at hpc
    rcases hpc with (h1 | h2) | h3 <;> subst_vars <;>
      exact absurd h (by decide)

lemma dropWhile_space_of_digits {l : List Char}
    (h : ∀ c ∈ l, c.isDigit = true) : l.dropWhile pyIsSpace = l := by
  cases l with
  | nil => rfl
  | cons c cs =>
    have hc : c.isDigit = true := h c (by simp)
    simp [List.dropWhile_cons, not_space_of_isDigit hc]

lemma slashMatchK_digits {cs : List Char}
    (hall : ∀ c ∈ cs, c.isDigit = true) (k : Nat) :
    slashMatchK cs k = none := by
  unfold slashMatchK
  by_cases hg : ((cs.take k).length = k && (cs.take k).all Char.isDigit &&
      decide (0 < k)) = true
  · rw [if_pos hg]
    have hdig : ∀ c ∈ cs.drop k, c.isDigit = true :=
      fun c hc => hall c (List.mem_of_mem_drop hc)
    rw [dropWhile_space_of_digits hdig]
    cases hdk : cs.drop k with
    | nil => rfl
    | cons d ds =>
      have hd : d.isDigit = true := hdig d (by rw [hdk]; simp)
      simp [not_sep_of_isDigit hd]
  · rw [if_neg hg]

lemma slashSearch_digits {s : List Char}
    (hall : ∀ c ∈ s, c.isDigit = true) : slashSearch s = none := by
  induction s with
  | nil => rfl
  | cons c cs ih =>
    have h3 := slashMatchK_digits hall 3
    have h2 := slashMatchK_digits hall 2
    have h1 := slashMatchK_digits hall 1
    simp only [slashSearch, h3, h2, h1]
    exact ih (fun d hd => hall d (List.mem_cons_of_mem _ hd))

lemma digitSearch13_digits {s : List Char} (h1 : s ≠ [])
    (hall : ∀ c ∈ s, c.isDigit = true) (h3 : s.length ≤ 3) :
    digitSearch13 s = some s := by
  cases s with
  | nil => exact absurd rfl h1
  | cons c cs =>
    have hc : c.isDigit = true := hall c (by simp)
    have htw : (c :: cs).takeWhile Char.isDigit = c :: cs :=
      List.takeWhile_eq_self_iff.mpr hall
    simp only [digitSearch13, hc, if_true, htw]
    rw [List.take_of_length_le h3]

/-- C4: with a known total card count, the candidate scan accepts a lone
digit sequence `s` (value `n`) as the numerator, returning `"s/count"`, if
and only if `1 ≤ n ≤ count`; out-of-range lone numbers fall through every
pattern and are rejected. -/
theorem ocr_lone_number_boundary (count : Nat) (s : List Char)
    (h1 : s ≠ []) (hall : ∀ c ∈ s, c.isDigit = true) (h3 : s.length ≤ 3) :
    tryText (some count) s = some (String.mk s ++ "/" ++ Nat.repr count) ↔
      (1 ≤ charsToNat s ∧ charsToNat s ≤ count) := by
  have hds := digitSearch13_digits h1 hall h3
  have hss := slashSearch_digits hall
  constructor
  · intro he
    by_contra hc
    have hcb : (decide (0 < charsToNat s) && decide (charsToNat s ≤ count))
        = false := by
      rcases Decidable.not_and_iff_or_not.mp hc with h | h
      all_goals simp at h ⊢
      all_goals omega
    simp [tryText, hds, hss, hcb] at he
  · intro hc
    have hcb : (decide (0 < charsToNat s) && decide (charsToNat s ≤ count))
        = true := by
      simp
      omega
    simp [tryText, hds, hss, hcb]

/-- Witness for `ocr_lone_number_boundary` with set count 102: the lone
candidate `102` is accepted as `"102/102"`, `1` is accepted as `"1/102"`,
and `103` is rejected. -/
theorem ocr_lone_number_boundary_witness :
    tryText (some 102) "102".data = some "102/102" ∧
    tryText (some 102) "1".data = some "1/102" ∧
    tryText (some 102) "103".data ≠ some "103/102" := by
  refine ⟨?_, ?_, ?_⟩
  · have h := (ocr_lone_number_boundary 102 "102".data (by decide) (by decide)
      (by decide)).mpr (by decide)
    have he : String.mk "102".data ++ "/" ++ Nat.repr 102 = "102/102" := by
      decide
    rw [he] at h
    exact h
  · have h := (ocr_lone_number_boundary 102 "1".data (by decide) (by decide)
      (by decide)).mpr (by decide)
    have he : String.mk "1".data ++ "/" ++ Nat.repr 102 = "1/102" := by
      decide
    rw [he] at h
    exact h
  · intro he
    have h := (ocr_lone_number_boundary 102 "103".data (by decide) (by decide)
      (by decide)).mp (by
        have he2 : String.mk "103".data ++ "/" ++ Nat.repr 102 = "103/102" :=
          by decide
        rw [he2]
        exact he)
    exact absurd h.2 (by decide)

lemma clmStep_far {h : List Bool} {acc : Option String × Rat}
    (hacc : acc.2 = 1) {kv : List Bool × String}
    (hkv : 1 ≤ hammingDistance h kv.1) : clmStep h acc kv = acc := by
  simp only [clmStep]
  split_ifs with hd hgt
  · exfalso
    have h1 : (1 : Rat) ≤ (hammingDistance h kv.1 : Rat) := by
      exact_mod_cast hkv
    rw [hacc] at hgt
    linarith
  · rfl
  · rfl

lemma foldl_clmStep_far {h : List Bool} {l : List (List Bool × String)}
    {acc : Option String × Rat} (hacc : acc.2 = 1)
    (hl : ∀ kv ∈ l, 1 ≤ hammingDistance h kv.1) :
    l.foldl (clmStep h) acc = acc := by
  induction l with
  | nil => rfl
  | cons kv rest ih =>
    rw [List.foldl_cons, clmStep_far hacc (hl kv (by simp))]
    exact ih (fun u hu => hl u (by simp [hu]))

lemma clmStep_hit {h : List Bool} {acc : Option String × Rat}
    (hacc : acc.2 < 1) (X : String) : clmStep h acc (h, X) = (some X, 1) := by
  have h0 : hammingDistance h h = 0 := hammingDistance_self h
  simp only [clmStep, h0, Nat.cast_zero]
  norm_num
  intro hle
  exact absurd hacc (by simpa using hle)

lemma clmStep_lt_one {h : List Bool} {acc : Option String × Rat}
    {kv : List Bool × String} (hacc : acc.2 < 1)
    (hkv : 1 ≤ hammingDistance h kv.1) : (clmStep h acc kv).2 < 1 := by
  simp only [clmStep]
  split_ifs with hd hgt
  · have h1 : (1 : Rat) ≤ (hammingDistance h kv.1 : Rat) := by
      exact_mod_cast hkv
    simp only
    linarith
  · exact hacc
  · exact hacc

lemma foldl_clmStep_reach {h : List Bool} {X : String} :
    ∀ (l : List (List Bool × String)) (acc : Option String × Rat),
    acc.2 < 1 → (h, X) ∈ l → (∀ kv ∈ l, kv.1.length = h.length) →
    (l.map Prod.fst).Nodup → l.foldl (clmStep h) acc = (some X, 1) := by
  intro l
  induction l with
  | nil => intro acc _ hmem _ _; simp at hmem
  | cons kv rest ih =>
    intro acc hacc hmem hlen hnd
    rw [List.map_cons] at hnd
    rcases List.nodup_cons.mp hnd with ⟨hni, hnd'⟩
    by_cases hk : kv.1 = h
    · have hkX : kv = (h, X) := by
        rcases List.mem_cons.mp hmem with he | hr
        · exact he.symm
        · exfalso
          apply hni
          rw [hk]
          exact List.mem_map.mpr ⟨(h, X), hr, rfl⟩
      rw [hkX, List.foldl_cons, clmStep_hit hacc X]
      apply foldl_clmStep_far rfl
      intro u hu
      have hne : h ≠ u.1 := by
        intro he
        apply hni
        rw [hk, he]
        exact List.mem_map.mpr ⟨u, hu, rfl⟩
      exact hammingDistance_pos
        ((hlen u (List.mem_cons_of_mem _ hu)).symm) hne
    · have hmem' : (h, X) ∈ rest := by
        rcases List.mem_cons.mp hmem with he | hr
        · exact absurd (by rw [← he]) hk
        · exact hr
      have hdist : 1 ≤ hammingDistance h kv.1 := by
        have hne : h ≠ kv.1 := fun e => hk e.symm
        exact hammingDistance_pos ((hlen kv (by simp)).symm) hne
      rw [List.foldl_cons]
      exact ih (clmStep h acc kv) (clmStep_lt_one hacc hdist) hmem'
        (fun u hu => hlen u (List.mem_cons_of_mem _ hu)) hnd'

lemma dictSet_mem (l : List (List Bool × String)) (k : List Bool)
    (v : String) : (k, v) ∈ dictSet l k v := by
  induction l with
  | nil => simp [dictSet]
  | cons kv rest ih =>
    by_cases hk : kv.1 = k
    · simp [dictSet, hk]
    · simp only [dictSet, if_neg hk]
      exact List.mem_cons_of_mem _ ih

lemma dictSet_mem_cases {l : List (List Bool × String)} {k : List Bool}
    {v : String} {u : List Bool × String} (hu : u ∈ dictSet l k v) :
    u ∈ l ∨ u = (k, v) := by
  induction l with
  | nil => simp [dictSet] at hu; exact Or.inr hu
  | cons kv rest ih =>
    by_cases hk : kv.1 = k
    · simp only [dictSet, if_pos hk, List.mem_cons] at hu
      rcases hu with he | hr
      · exact Or.inr he
      · exact Or.inl (List.mem_cons_of_mem _ hr)
    · simp only [dictSet, if_neg hk, List.mem_cons] at hu
      rcases hu with he | hr
      · exact Or.inl (by simp [he])
      · rcases ih hr with h1 | h2
        · exact Or.inl (List.mem_cons_of_mem _ h1)
        · exact Or.inr h2

lemma dictSet_keys_sub {l : List (List Bool × String)} {k : List Bool}
    {v : String} {a : List Bool}
    (ha : a ∈ (dictSet l k v).map Prod.fst) :
    a ∈ l.map Prod.fst ∨ a = k := by
  rcases List.mem_map.mp ha with ⟨u, hu, hua⟩
  rcases dictSet_mem_cases hu with h1 | h2
  · exact Or.inl (List.mem_map.mpr ⟨u, h1, hua⟩)
  · rw [h2] at hua
    exact Or.inr hua.symm

lemma dictSet_keys_nodup {l : List (List Bool × String)} {k : List Bool}
    {v : String} (h : (l.map Prod.fst).Nodup) :
    ((dictSet l k v).map Prod.fst).Nodup := by
  induction l with
  | nil => simp [dictSet]
  | cons kv rest ih =>
    rw [List.map_cons] at h
    rcases List.nodup_cons.mp h with ⟨hni, hnd⟩
    by_cases hk : kv.1 = k
    · simp only [dictSet, if_pos hk, List.map_cons]
      refine List.nodup_cons.mpr ⟨?_, hnd⟩
      rw [← hk]
      exact hni
    · simp only [dictSet, if_neg hk, List.map_cons]
      refine List.nodup_cons.mpr ⟨?_, ih hnd⟩
      intro hmem
      rcases dictSet_keys_sub hmem with h1 | h2
      · exact hni h1
      · exact hk h2

/-- C2: after `add_confirmed_match(image, X)`, a `check_learned_match` on a
bit-identical image returns `X` with confidence exactly `1.0` (Hamming
distance 0); no other stored hash ties or beats it, since distinct
fixed-length hashes have distance at least 1.  Hypotheses: the card id is a
non-empty string, the image is the 16 x 16 (256-pixel) raster the hash
stage produces, and the stored table holds unique 256-bit keys — the
invariants every run-reachable learning database satisfies. -/
theorem memory_roundtrip (st : LearningData) (image : Image) (X : String)
    (hX : X ≠ "") (himg : image.length = 256)
    (hkeys : ∀ kv ∈ st.confirmed_matches, kv.1.length = 256)
    (hnd : (st.confirmed_matches.map Prod.fst).Nodup) :
    check_learned_match (add_confirmed_match st image X) image =
      (some X, 1, some "learned") := by
  have hlen : (perceptualHash image).length = 256 := by
    simp [perceptualHash, himg]
  have hfold : (dictSet st.confirmed_matches (perceptualHash image) X).foldl
      (clmStep (perceptualHash image)) (none, 0) = (some X, 1) := by
    apply foldl_clmStep_reach
    · norm_num
    · exact dictSet_mem _ _ _
    · intro kv hkv
      rcases dictSet_mem_cases hkv with hl | he
      · rw [hkeys kv hl, hlen]
      · rw [he]
    · exact dictSet_keys_nodup hnd
  unfold check_learned_match add_confirmed_match
  simp only [hfold]
  simp [pyTruthy, hX]

set_option maxRecDepth 4096 in
/-- Witness for `memory_roundtrip`: a one-entry memory learns a second
association and looks it up on the identical image. -/
theorem memory_roundtrip_witness :
    check_learned_match
      (add_confirmed_match
        (LearningData.mk [(List.replicate 256 true, "neo1-2")] [] []
          (LearningStats.mk 0 0 0)) (List.range 256) "neo1-1")
      (List.range 256) = (some "neo1-1", 1, some "learned") :=
  memory_roundtrip
    (LearningData.mk [(List.replicate 256 true, "neo1-2")] [] []
      (LearningStats.mk 0 0 0)) (List.range 256) "neo1-1"
    (by decide) (by simp) (by decide) (by decide)
